import Mathlib

/-!
Verification of the nanomsg transport-plugin boundary (`src/transport.h`).

The repository contains only the interface header `transport.h`; the core
implementation files (`pipe.c`, `ep.c`, `global.c`, the per-transport option
sets) are not part of the repository snapshot.  Declarations and constants
that appear in the header are embedded directly from it; behaviour that the
header only declares is modelled from the specification, as marked on each
definition.
-/

/-- Flag from transport.h line 134: returned by a pipe's send/recv to signal
that more sends/recvs are not possible at the moment. -/
def NN_PIPEBASE_RELEASE : Nat := 1

/-- Flag from transport.h line 139: the received message is already split into
header and body. -/
def NN_PIPEBASE_PARSED : Nat := 2

/-- Modelled from the spec: option identifiers come from `nn.h`, which is not
in the repository snapshot; they are distinct integers. -/
def NN_SOL_SOCKET : Int := 0

/-- Modelled from the spec: send-priority option identifier (`nn.h`). -/
def NN_SNDPRIO : Int := 8

/-- Modelled from the spec: receive-priority option identifier (`nn.h`). -/
def NN_RCVPRIO : Int := 9

/-- Modelled from the spec: IPv4-only option identifier (`nn.h`). -/
def NN_IPV4ONLY : Int := 14

/-- Modelled from the spec: the "unsupported option" errno value. -/
def ENOPROTOOPT : Int := 92

/-- Modelled from the spec: the "malformed value" errno value. -/
def EINVAL : Int := 22

/-- Modelled from the spec: nanomsg errno base. -/
def NN_HAUSNUMERO : Int := 156384712

/-- Modelled from the spec: the "library terminating" errno value. -/
def ETERM : Int := NN_HAUSNUMERO + 53

/-- Bitmask built from the two pipe result flags of transport.h
(`NN_PIPEBASE_RELEASE`, `NN_PIPEBASE_PARSED`); the vfptr comment says send and
recv return "any combination of the flags defined above". -/
def pipeFlagCombo (rel par : Bool) : Nat :=
  (cond rel NN_PIPEBASE_RELEASE 0) ||| (cond par NN_PIPEBASE_PARSED 0)

/-- Result encoding of `nn_pipebase_vfptr.send` / `.recv` (transport.h lines
141-150): either an error (negative number) or a combination of the flags. -/
def validPipeResult (r : Int) : Prop :=
  r < 0 ∨ ∃ rel par : Bool, r = (pipeFlagCombo rel par : Int)

/-- Per-endpoint options, from `struct nn_ep_options` (transport.h lines
153-158). -/
structure nn_ep_options where
  sndprio : Int
  rcvprio : Int
  ipv4only : Int
deriving DecidableEq, Repr

/-- Socket object as seen through this boundary: its SP protocol number and a
socket-level option lookup.  Modelled from the spec: `struct nn_sock` is an
external collaborator, declared but not defined in transport.h. -/
structure nn_sock where
  socktype : Int
  sopts : Int → Int → Option Int

/-- Endpoint, per the spec's data model: one immutable address string, a
back-reference to the owning socket, per-endpoint options.  Modelled from the
spec: `struct nn_ep` is only declared in transport.h. -/
structure nn_ep where
  addr : String
  sock : nn_sock
  options : nn_ep_options

/-- Modelled from the spec: `nn_ep_getopt` (declared transport.h line 98)
resolves first against the three per-endpoint options, falling through to
socket-level options; unknown ids signal "unsupported". -/
def nn_ep_getopt (ep : nn_ep) (level option : Int) : Except Int Int :=
  if level = NN_SOL_SOCKET ∧ option = NN_SNDPRIO then .ok ep.options.sndprio
  else if level = NN_SOL_SOCKET ∧ option = NN_RCVPRIO then .ok ep.options.rcvprio
  else if level = NN_SOL_SOCKET ∧ option = NN_IPV4ONLY then .ok ep.options.ipv4only
  else match ep.sock.sopts level option with
       | some v => .ok v
       | none => .error (-ENOPROTOOPT)

/-- Modelled from the spec: the socket-type compatibility table is owned by the
excluded socket-core collaborator.  Pairs of SP protocol numbers that may
legally connect (both directions listed, as in the SP protocol family). -/
def peerTable : List (Int × Int) :=
  [(16, 16), (32, 33), (33, 32), (48, 49), (49, 48),
   (80, 81), (81, 80), (96, 97), (97, 96), (112, 112)]

/-- Modelled from the spec: `nn_ep_ispeer` (declared transport.h line 103)
returns 1 if the specified socket type is a valid peer for this socket,
0 otherwise. -/
def nn_ep_ispeer (ep : nn_ep) (socktype : Int) : Int :=
  if (ep.sock.socktype, socktype) ∈ peerTable then 1 else 0

/-- Modelled from the spec: `nn_ep_ispeer_ep` (declared transport.h line 106)
checks two endpoints' socket types against the compatibility table. -/
def nn_ep_ispeer_ep (a b : nn_ep) : Int :=
  nn_ep_ispeer a b.sock.socktype

/-- Pipe base object, from `struct nn_pipebase` (transport.h lines 162-173).
The header's fields are: fsm, vfptr, state, instate, outstate, sock, data, in,
out, options.  The model keeps the state bytes, the socket back-reference and
the embedded `nn_ep_options` value; the omitted members (fsm, vfptr, the two
event slots, the protocol-private data pointer) are not endpoint references
either — notably, the struct holds `struct nn_sock *sock` and a `struct
nn_ep_options` value, and no `nn_ep` member. -/
structure nn_pipebase where
  state : Nat
  instate : Nat
  outstate : Nat
  sock : nn_sock
  options : nn_ep_options

/-- Modelled from the spec: `nn_pipebase_init` (declared transport.h line 176)
sets up a pipe for the given endpoint.  Since `struct nn_pipebase` stores an
`nn_ep_options` value and an `nn_sock` pointer, initialisation copies the
endpoint's options and socket reference into the pipe. -/
def nn_pipebase_init (ep : nn_ep) : nn_pipebase :=
  { state := 0, instate := 0, outstate := 0, sock := ep.sock, options := ep.options }

/-- Modelled from the spec: `nn_pipebase_getopt` (declared transport.h line
195) resolves options the same way as the endpoint does, using the pipe's
stored option copy and socket reference. -/
def nn_pipebase_getopt (p : nn_pipebase) (level option : Int) : Except Int Int :=
  if level = NN_SOL_SOCKET ∧ option = NN_SNDPRIO then .ok p.options.sndprio
  else if level = NN_SOL_SOCKET ∧ option = NN_RCVPRIO then .ok p.options.rcvprio
  else if level = NN_SOL_SOCKET ∧ option = NN_IPV4ONLY then .ok p.options.ipv4only
  else match p.sock.sopts level option with
       | some v => .ok v
       | none => .error (-ENOPROTOOPT)

/-- Transport-specific socket-option container, from `struct nn_optset`
(transport.h lines 48-58).  Modelled from the spec: concrete option sets are
per-transport; a set knows a list of fixed-size (4-byte) integer options and
stores a value for each. -/
structure nn_optset where
  known : List Int
  vals : Int → Int

/-- Modelled from the spec: `nn_optset_vfptr.setopt` returns a negative code
when the option id is unrecognized or the value has the wrong length for a
fixed-size option, otherwise writes the option storage. -/
def nn_optset_setopt (s : nn_optset) (option : Int) (optval : Int)
    (optvallen : Nat) : Int × nn_optset :=
  if option ∈ s.known then
    if optvallen = 4 then
      (0, { s with vals := fun i => if i = option then optval else s.vals i })
    else (-EINVAL, s)
  else (-ENOPROTOOPT, s)

/-- Modelled from the spec: `nn_optset_vfptr.getopt` returns a negative code
for an unrecognized id, otherwise reads the stored value and reports its
size. -/
def nn_optset_getopt (s : nn_optset) (option : Int) (optvallen : Nat) :
    Int × Int × Nat :=
  if option ∈ s.known then (0, s.vals option, 4)
  else (-ENOPROTOOPT, 0, optvallen)

/-- Example socket used in concrete instantiations. -/
def sockEx : nn_sock :=
  { socktype := 16, sopts := fun level option => if level = 1 ∧ option = 2 then some 7 else none }

/-- Example endpoint. -/
def epEx : nn_ep :=
  { addr := "tcp://127.0.0.1:5555", sock := sockEx, options := ⟨4, 5, 1⟩ }

/-- Example endpoint differing from `epEx` only in its address. -/
def epEx2 : nn_ep :=
  { addr := "tcp://127.0.0.1:6666", sock := sockEx, options := ⟨4, 5, 1⟩ }

/-- Example option set. -/
def optsetEx : nn_optset :=
  { known := [1, 2], vals := fun _ => 0 }

lemma peerTable_swap : ∀ p ∈ peerTable, (p.2, p.1) ∈ peerTable := by decide

lemma peerTable_symm (x y : Int) :
    (x, y) ∈ peerTable ↔ (y, x) ∈ peerTable :=
  ⟨fun h => peerTable_swap (x, y) h, fun h => peerTable_swap (y, x) h⟩

/-- C4: a result of a pipe's send/recv is either a negative error code or a
bitmask over exactly the two flags RELEASE = 1 and PARSED = 2, so every
non-negative result is in 0..3. -/
theorem pipe_result_encoding (r : Int) :
    validPipeResult r ↔ (r < 0 ∨ r = 0 ∨ r = 1 ∨ r = 2 ∨ r = 3) := by
  constructor
  · rintro (hneg | ⟨rel, par, h⟩)
    · exact Or.inl hneg
    · cases rel <;> cases par <;> simp [pipeFlagCombo, NN_PIPEBASE_RELEASE, NN_PIPEBASE_PARSED] at h <;> subst h <;> simp
  · rintro (hneg | rfl | rfl | rfl | rfl)
    · exact Or.inl hneg
    · exact Or.inr ⟨false, false, by decide⟩
    · exact Or.inr ⟨true, false, by decide⟩
    · exact Or.inr ⟨false, true, by decide⟩
    · exact Or.inr ⟨true, true, by decide⟩

/-- C5: the peer-compatibility check between two endpoints is symmetric and
always returns 0 or 1. -/
theorem ispeer_ep_symm (a b : nn_ep) :
    nn_ep_ispeer_ep a b = nn_ep_ispeer_ep b a ∧
    (nn_ep_ispeer_ep a b = 0 ∨ nn_ep_ispeer_ep a b = 1) := by
  unfold nn_ep_ispeer_ep nn_ep_ispeer
  constructor
  · by_cases h : (a.sock.socktype, b.sock.socktype) ∈ peerTable
    · rw [if_pos h, if_pos ((peerTable_symm _ _).mp h)]
    · rw [if_neg h, if_neg (fun h' => h ((peerTable_symm _ _).mp h'))]
  · by_cases h : (a.sock.socktype, b.sock.socktype) ∈ peerTable
    · exact Or.inr (if_pos h)
    · exact Or.inl (if_neg h)

/-- C6: endpoint get-option resolves the three per-endpoint options first
(even when the socket level also knows the id), falls through to socket-level
options otherwise, and signals a negative "unsupported" code for ids unknown
at both levels. -/
theorem ep_getopt_resolution (ep : nn_ep) :
    (nn_ep_getopt ep NN_SOL_SOCKET NN_SNDPRIO = .ok ep.options.sndprio ∧
     nn_ep_getopt ep NN_SOL_SOCKET NN_RCVPRIO = .ok ep.options.rcvprio ∧
     nn_ep_getopt ep NN_SOL_SOCKET NN_IPV4ONLY = .ok ep.options.ipv4only) ∧
    (∀ level option v,
      ¬(level = NN_SOL_SOCKET ∧
          (option = NN_SNDPRIO ∨ option = NN_RCVPRIO ∨ option = NN_IPV4ONLY)) →
      ep.sock.sopts level option = some v →
      nn_ep_getopt ep level option = .ok v) ∧
    (∀ level option,
      ¬(level = NN_SOL_SOCKET ∧
          (option = NN_SNDPRIO ∨ option = NN_RCVPRIO ∨ option = NN_IPV4ONLY)) →
      ep.sock.sopts level option = none →
      nn_ep_getopt ep level option = .error (-ENOPROTOOPT) ∧ -ENOPROTOOPT < 0) := by
  refine ⟨⟨?_, ?_, ?_⟩, ?_, ?_⟩
  · simp [nn_ep_getopt]
  · simp [nn_ep_getopt, NN_SNDPRIO, NN_RCVPRIO, NN_IPV4ONLY]
  · simp [nn_ep_getopt, NN_SNDPRIO, NN_RCVPRIO, NN_IPV4ONLY]
  · intro level option v hnot hsock
    unfold nn_ep_getopt
    rw [if_neg (fun h => hnot ⟨h.1, Or.inl h.2⟩),
        if_neg (fun h => hnot ⟨h.1, Or.inr (Or.inl h.2)⟩),
        if_neg (fun h => hnot ⟨h.1, Or.inr (Or.inr h.2)⟩), hsock]
  · intro level option hnot hsock
    unfold nn_ep_getopt
    rw [if_neg (fun h => hnot ⟨h.1, Or.inl h.2⟩),
        if_neg (fun h => hnot ⟨h.1, Or.inr (Or.inl h.2)⟩),
        if_neg (fun h => hnot ⟨h.1, Or.inr (Or.inr h.2)⟩), hsock]
    exact ⟨rfl, by decide⟩

/-- Witness for `ep_getopt_resolution` at a concrete endpoint: the unknown
option id 99 is rejected with a negative code. -/
theorem ep_getopt_resolution_witness :
    nn_ep_getopt epEx 1 99 = .error (-ENOPROTOOPT) ∧ -ENOPROTOOPT < 0 :=
  (ep_getopt_resolution epEx).2.2 1 99 (by decide) rfl

/-- Counterexample for C7: `struct nn_pipebase` (transport.h lines 162-173)
holds a socket back-reference and a copy of the endpoint options, but no
reference to its endpoint: two distinct endpoints that share a socket and
options yield identical pipes, so no function of a pipe can recover the
endpoint it was initialised from. -/
theorem pipebase_no_ep_backref :
    (epEx ≠ epEx2 ∧ nn_pipebase_init epEx = nn_pipebase_init epEx2) ∧
    ¬∃ epOf : nn_pipebase → nn_ep, ∀ ep, epOf (nn_pipebase_init ep) = ep := by
  have hne : epEx ≠ epEx2 := by
    intro h
    have := congrArg nn_ep.addr h
    simp [epEx, epEx2] at this
  have heq : nn_pipebase_init epEx = nn_pipebase_init epEx2 := rfl
  refine ⟨⟨hne, heq⟩, ?_⟩
  rintro ⟨epOf, hrt⟩
  exact hne ((hrt epEx).symm.trans (heq ▸ hrt epEx2))

/-- C7 (amended): pipe get-option resolves against the option copy and socket
reference stored at `nn_pipebase_init`, and therefore yields the same result
as endpoint get-option on the endpoint the pipe was initialised from. -/
theorem pipebase_getopt_agrees_ep (ep : nn_ep) (level option : Int) :
    nn_pipebase_getopt (nn_pipebase_init ep) level option =
      nn_ep_getopt ep level option := rfl

/-- C8: option-set set and get return a negative code whenever the option id
is unrecognized or the value length is wrong for a fixed-size option, leave
the storage untouched on failure, and on success touch nothing but the stored
value of the one option written. -/
theorem optset_error_handling (s : nn_optset) (option optval : Int) (optvallen : Nat) :
    ((nn_optset_setopt s option optval optvallen).1 = 0 ∨
     (nn_optset_setopt s option optval optvallen).1 < 0) ∧
    (option ∉ s.known → (nn_optset_setopt s option optval optvallen).1 < 0 ∧
      (nn_optset_getopt s option optvallen).1 < 0) ∧
    (optvallen ≠ 4 → (nn_optset_setopt s option optval optvallen).1 < 0) ∧
    ((nn_optset_setopt s option optval optvallen).1 < 0 →
      (nn_optset_setopt s option optval optvallen).2 = s) ∧
    ((nn_optset_setopt s option optval optvallen).1 = 0 →
      (nn_optset_setopt s option optval optvallen).2.known = s.known ∧
      (nn_optset_setopt s option optval optvallen).2.vals option = optval ∧
      ∀ j, j ≠ option → (nn_optset_setopt s option optval optvallen).2.vals j = s.vals j) ∧
    ((nn_optset_getopt s option optvallen).1 = 0 →
      (nn_optset_getopt s option optvallen).2.1 = s.vals option) := by
  unfold nn_optset_setopt nn_optset_getopt
  by_cases hk : option ∈ s.known
  · by_cases hl : optvallen = 4
    · simp only [if_pos hk, if_pos hl]
      exact ⟨Or.inl trivial, fun h => absurd hk h, fun h => absurd hl h,
        fun h => absurd h (by norm_num),
        fun _ => ⟨trivial, by simp, fun j hj => by simp [hj]⟩,
        fun _ => trivial⟩
    · norm_num [EINVAL, hk, hl]
  · norm_num [ENOPROTOOPT, hk]

/-- Witness for `optset_error_handling` at a concrete option set: the unknown
id 3 is rejected by both set and get with a negative code. -/
theorem optset_error_handling_witness :
    (nn_optset_setopt optsetEx 3 5 4).1 < 0 ∧ (nn_optset_getopt optsetEx 3 4).1 < 0 :=
  (optset_error_handling optsetEx 3 5 4).2.1 (by decide)

/-- Flow sub-state of one pipe direction.  Modelled from the spec: two
independent two-state sub-machines, one per direction, nested inside the
pipe's lifecycle. -/
inductive FlowSt
  | flowing
  | released
deriving DecidableEq

/-- Pipe lifecycle.  Modelled from the spec: INIT → STARTED → STOPPED, with a
stopping phase between the owner's stop call and the pipe's own stopped
acknowledgment. -/
inductive PipeLife
  | pinit
  | pstarted
  | pstopping
  | pstopped
deriving DecidableEq

/-- State of one pipe: lifecycle plus the two directional flow states, the
model of the `state`/`instate`/`outstate` bytes of `struct nn_pipebase`. -/
structure PipeSt where
  life : PipeLife
  outF : FlowSt
  inF : FlowSt
deriving DecidableEq

/-- Does a send/recv result carry the `NN_PIPEBASE_RELEASE` flag?  Error
results (negative numbers) carry no flags. -/
def hasRelease (r : Int) : Bool :=
  decide (0 ≤ r) && decide (r.toNat &&& NN_PIPEBASE_RELEASE ≠ 0)

/-- Events on one pipe: core-issued operations (start, send, recv, stop) and
transport callbacks (`nn_pipebase_sent`, `nn_pipebase_received`, the stopped
acknowledgment). -/
inductive PipeEv
  | startEv
  | sendEv (res : Int)
  | recvEv (res : Int)
  | sentEv
  | receivedEv
  | stopEv
  | stopAckEv
deriving DecidableEq

/-- Modelled from the spec: one step of the pipe contract.  The core issues
send (recv) only while that direction is flowing; a RELEASE result parks the
direction until the matching resume callback; a negative result kills the
pipe; stop may still be followed by a final in-flight send/recv, but nothing
is driven after the stopped acknowledgment. -/
def pipeStep (s : PipeSt) : PipeEv → Option PipeSt
  | .startEv =>
      if s.life = .pinit then some ⟨.pstarted, .flowing, .flowing⟩ else none
  | .sendEv res =>
      if (s.life = .pstarted ∨ s.life = .pstopping) ∧ s.outF = .flowing then
        if res < 0 then some ⟨.pstopped, s.outF, s.inF⟩
        else if hasRelease res then some ⟨s.life, .released, s.inF⟩
        else some s
      else none
  | .recvEv res =>
      if (s.life = .pstarted ∨ s.life = .pstopping) ∧ s.inF = .flowing then
        if res < 0 then some ⟨.pstopped, s.outF, s.inF⟩
        else if hasRelease res then some ⟨s.life, s.outF, .released⟩
        else some s
      else none
  | .sentEv =>
      if s.outF = .released then some ⟨s.life, .flowing, s.inF⟩ else none
  | .receivedEv =>
      if s.inF = .released then some ⟨s.life, s.outF, .flowing⟩ else none
  | .stopEv =>
      if s.life = .pstarted then some ⟨.pstopping, s.outF, s.inF⟩ else none
  | .stopAckEv =>
      if s.life = .pstopping then some ⟨.pstopped, s.outF, s.inF⟩ else none

/-- Run a sequence of pipe events; `none` means some event violated the
contract. -/
def runPipe : PipeSt → List PipeEv → Option PipeSt
  | s, [] => some s
  | s, e :: rest =>
      match pipeStep s e with
      | some s2 => runPipe s2 rest
      | none => none

/-- Initial pipe state, as set up by `nn_pipebase_init`. -/
def pipe0 : PipeSt := ⟨.pinit, .flowing, .flowing⟩

lemma runPipe_append (l1 l2 : List PipeEv) : ∀ s : PipeSt,
    runPipe s (l1 ++ l2) = (runPipe s l1).bind fun s2 => runPipe s2 l2 := by
  induction l1 with
  | nil => intro s; simp [runPipe]
  | cons e rest ih =>
      intro s
      simp only [List.cons_append, runPipe]
      cases pipeStep s e with
      | none => simp
      | some s2 => simpa using ih s2

lemma hasRelease_not_neg {r : Int} (h : hasRelease r = true) : ¬r < 0 := by
  have := (Bool.and_eq_true _ _).mp h
  exact fun hneg => absurd (of_decide_eq_true this.1) (by omega)

lemma pipeStep_out_released {s s2 : PipeSt} {e : PipeEv} (he : e ≠ .sentEv)
    (ho : s.outF = .released) (hl : s.life ≠ .pinit)
    (h : pipeStep s e = some s2) : s2.outF = .released ∧ s2.life ≠ .pinit := by
  cases e with
  | startEv => rw [pipeStep, if_neg hl] at h; exact absurd h (by simp)
  | sendEv res =>
      rw [pipeStep, if_neg (fun hc => by rw [ho] at hc; exact absurd hc.2 (by simp))] at h
      exact absurd h (by simp)
  | recvEv res =>
      rw [pipeStep] at h
      split_ifs at h <;> cases h
      · exact ⟨ho, by simp⟩
      · exact ⟨ho, hl⟩
      · exact ⟨ho, hl⟩
  | sentEv => exact absurd rfl he
  | receivedEv =>
      rw [pipeStep] at h
      split_ifs at h
      cases h
      exact ⟨ho, hl⟩
  | stopEv =>
      rw [pipeStep] at h
      split_ifs at h
      cases h
      exact ⟨ho, by simp⟩
  | stopAckEv =>
      rw [pipeStep] at h
      split_ifs at h
      cases h
      exact ⟨ho, by simp⟩

lemma pipeStep_in_released {s s2 : PipeSt} {e : PipeEv} (he : e ≠ .receivedEv)
    (hi : s.inF = .released) (hl : s.life ≠ .pinit)
    (h : pipeStep s e = some s2) : s2.inF = .released ∧ s2.life ≠ .pinit := by
  cases e with
  | startEv => rw [pipeStep, if_neg hl] at h; exact absurd h (by simp)
  | recvEv res =>
      rw [pipeStep, if_neg (fun hc => by rw [hi] at hc; exact absurd hc.2 (by simp))] at h
      exact absurd h (by simp)
  | sendEv res =>
      rw [pipeStep] at h
      split_ifs at h <;> cases h
      · exact ⟨hi, by simp⟩
      · exact ⟨hi, hl⟩
      · exact ⟨hi, hl⟩
  | receivedEv => exact absurd rfl he
  | sentEv =>
      rw [pipeStep] at h
      split_ifs at h
      cases h
      exact ⟨hi, hl⟩
  | stopEv =>
      rw [pipeStep] at h
      split_ifs at h
      cases h
      exact ⟨hi, by simp⟩
  | stopAckEv =>
      rw [pipeStep] at h
      split_ifs at h
      cases h
      exact ⟨hi, by simp⟩

lemma runPipe_out_released (l : List PipeEv) : ∀ s s2 : PipeSt,
    PipeEv.sentEv ∉ l → s.outF = .released → s.life ≠ .pinit →
    runPipe s l = some s2 → s2.outF = .released ∧ s2.life ≠ .pinit := by
  induction l with
  | nil =>
      intro s s2 _ ho hl hr
      simp only [runPipe, Option.some.injEq] at hr
      subst hr
      exact ⟨ho, hl⟩
  | cons e rest ih =>
      intro s s2 hmem ho hl hr
      simp only [runPipe] at hr
      cases hstep : pipeStep s e with
      | none => rw [hstep] at hr; exact absurd hr (by simp)
      | some s1 =>
          rw [hstep] at hr
          have hne : e ≠ PipeEv.sentEv := fun h => hmem (h ▸ List.mem_cons_self _ _)
          have h1 := pipeStep_out_released hne ho hl hstep
          exact ih s1 s2 (fun h => hmem (List.mem_cons_of_mem _ h)) h1.1 h1.2 hr

lemma runPipe_in_released (l : List PipeEv) : ∀ s s2 : PipeSt,
    PipeEv.receivedEv ∉ l → s.inF = .released → s.life ≠ .pinit →
    runPipe s l = some s2 → s2.inF = .released ∧ s2.life ≠ .pinit := by
  induction l with
  | nil =>
      intro s s2 _ hi hl hr
      simp only [runPipe, Option.some.injEq] at hr
      subst hr
      exact ⟨hi, hl⟩
  | cons e rest ih =>
      intro s s2 hmem hi hl hr
      simp only [runPipe] at hr
      cases hstep : pipeStep s e with
      | none => rw [hstep] at hr; exact absurd hr (by simp)
      | some s1 =>
          rw [hstep] at hr
          have hne : e ≠ PipeEv.receivedEv := fun h => hmem (h ▸ List.mem_cons_self _ _)
          have h1 := pipeStep_in_released hne hi hl hstep
          exact ih s1 s2 (fun h => hmem (List.mem_cons_of_mem _ h)) h1.1 h1.2 hr


/-- C1: once a send returns a result carrying RELEASE, an event sequence in
which the core issues another send before the transport's `nn_pipebase_sent`
callback violates the pipe contract (its run is `none`); symmetrically for
recv and `nn_pipebase_received`. -/
theorem pipe_release_flow_control :
    (∀ (l1 l2 : List PipeEv) (r r2 : Int), hasRelease r = true →
      PipeEv.sentEv ∉ l2 →
      runPipe pipe0 (l1 ++ PipeEv.sendEv r :: (l2 ++ [PipeEv.sendEv r2])) = none) ∧
    (∀ (l1 l2 : List PipeEv) (r r2 : Int), hasRelease r = true →
      PipeEv.receivedEv ∉ l2 →
      runPipe pipe0 (l1 ++ PipeEv.recvEv r :: (l2 ++ [PipeEv.recvEv r2])) = none) := by
  constructor
  · intro l1 l2 r r2 hrel hmem
    rw [runPipe_append]
    cases hc : runPipe pipe0 l1 with
    | none => rfl
    | some s =>
        show runPipe s (PipeEv.sendEv r :: (l2 ++ [PipeEv.sendEv r2])) = none
        rw [runPipe]
        cases hstep : pipeStep s (PipeEv.sendEv r) with
        | none => rfl
        | some s1 =>
            have h1 : s1.outF = .released ∧ s1.life ≠ .pinit := by
              rw [pipeStep] at hstep
              split_ifs at hstep with hg hneg
              · exact absurd hneg (hasRelease_not_neg hrel)
              · cases hstep
                refine ⟨rfl, fun hp => ?_⟩
                rcases hg.1 with h | h <;> rw [h] at hp <;> exact absurd hp (by simp)
            show runPipe s1 (l2 ++ [PipeEv.sendEv r2]) = none
            rw [runPipe_append]
            cases hc2 : runPipe s1 l2 with
            | none => rfl
            | some s3 =>
                have h3 := runPipe_out_released l2 s1 s3 hmem h1.1 h1.2 hc2
                show runPipe s3 [PipeEv.sendEv r2] = none
                simp only [runPipe, pipeStep]
                rw [if_neg (fun hcond => by
                  rw [h3.1] at hcond; exact absurd hcond.2 (by simp))]
  · intro l1 l2 r r2 hrel hmem
    rw [runPipe_append]
    cases hc : runPipe pipe0 l1 with
    | none => rfl
    | some s =>
        show runPipe s (PipeEv.recvEv r :: (l2 ++ [PipeEv.recvEv r2])) = none
        rw [runPipe]
        cases hstep : pipeStep s (PipeEv.recvEv r) with
        | none => rfl
        | some s1 =>
            have h1 : s1.inF = .released ∧ s1.life ≠ .pinit := by
              rw [pipeStep] at hstep
              split_ifs at hstep with hg hneg
              · exact absurd hneg (hasRelease_not_neg hrel)
              · cases hstep
                refine ⟨rfl, fun hp => ?_⟩
                rcases hg.1 with h | h <;> rw [h] at hp <;> exact absurd hp (by simp)
            show runPipe s1 (l2 ++ [PipeEv.recvEv r2]) = none
            rw [runPipe_append]
            cases hc2 : runPipe s1 l2 with
            | none => rfl
            | some s3 =>
                have h3 := runPipe_in_released l2 s1 s3 hmem h1.1 h1.2 hc2
                show runPipe s3 [PipeEv.recvEv r2] = none
                simp only [runPipe, pipeStep]
                rw [if_neg (fun hcond => by
                  rw [h3.1] at hcond; exact absurd hcond.2 (by simp))]

/-- Witness for `pipe_release_flow_control` at a concrete trace: after start,
a send returning flag 1 (RELEASE) followed immediately by another send is
rejected; same for recv. -/
theorem pipe_release_flow_control_witness :
    runPipe pipe0 ([PipeEv.startEv] ++ PipeEv.sendEv 1 :: ([] ++ [PipeEv.sendEv 0])) = none ∧
    runPipe pipe0 ([PipeEv.startEv] ++ PipeEv.recvEv 1 :: ([] ++ [PipeEv.recvEv 0])) = none :=
  ⟨pipe_release_flow_control.1 [PipeEv.startEv] [] 1 0 (by decide) (by simp),
   pipe_release_flow_control.2 [PipeEv.startEv] [] 1 0 (by decide) (by simp)⟩

/-- Endpoint lifecycle, per the spec: CREATED → ACTIVE → STOPPING →
STOPPED, after which destroy is permitted. -/
inductive EpLife
  | created
  | active
  | stoppingE
  | stoppedE
  | destroyed
deriving DecidableEq

/-- Events on one endpoint: successful bind/connect, a stop request from the
core, the transport's one-time `nn_ep_stopped` notification, and destroy. -/
inductive EpEv
  | activateEv
  | stopReqEv
  | stoppedEv
  | destroyEv
deriving DecidableEq

/-- Modelled from the spec: one step of the endpoint lifecycle contract.
Repeated stop requests while already stopping are tolerated and have no
observable effect; the stopped notification fires only from the stopping
state; destroy is legal only once the stopped notification has fired. -/
def epStep (s : EpLife) : EpEv → Option EpLife
  | .activateEv => if s = .created then some .active else none
  | .stopReqEv =>
      if s = .active then some .stoppingE
      else if s = .stoppingE then some .stoppingE
      else none
  | .stoppedEv => if s = .stoppingE then some .stoppedE else none
  | .destroyEv => if s = .stoppedE then some .destroyed else none

/-- Run a sequence of endpoint events; `none` means some event violated the
contract. -/
def runEp : EpLife → List EpEv → Option EpLife
  | s, [] => some s
  | s, e :: rest =>
      match epStep s e with
      | some s2 => runEp s2 rest
      | none => none

/-- Number of occurrences of an endpoint event in a trace. -/
def countEp (e : EpEv) : List EpEv → Nat
  | [] => 0
  | x :: rest => (if x = e then 1 else 0) + countEp e rest

/-- Number of stopped notifications already absorbed by a lifecycle state. -/
def ntfFlag : EpLife → Nat
  | .stoppedE => 1
  | .destroyed => 1
  | _ => 0

/-- Whether a lifecycle state can only be reached through a stop request. -/
def reqFlag : EpLife → Nat
  | .created => 0
  | .active => 0
  | _ => 1

lemma runEp_count (l : List EpEv) : ∀ s s2 : EpLife, runEp s l = some s2 →
    countEp EpEv.stoppedEv l + ntfFlag s = ntfFlag s2 ∧
    reqFlag s2 ≤ countEp EpEv.stopReqEv l + reqFlag s := by
  induction l with
  | nil =>
      intro s s2 h
      simp only [runEp, Option.some.injEq] at h
      subst h
      simp [countEp]
  | cons e rest ih =>
      intro s s2 h
      simp only [runEp] at h
      cases hstep : epStep s e with
      | none => rw [hstep] at h; exact absurd h (by simp)
      | some s1 =>
          rw [hstep] at h
          have := ih s1 s2 h
          cases e <;> cases s <;>
            simp [epStep] at hstep <;>
            subst hstep <;>
            simp [countEp, ntfFlag, reqFlag] at this ⊢ <;>
            omega

lemma runEp_append (l1 l2 : List EpEv) : ∀ s : EpLife,
    runEp s (l1 ++ l2) = (runEp s l1).bind fun s2 => runEp s2 l2 := by
  induction l1 with
  | nil => intro s; simp [runEp]
  | cons e rest ih =>
      intro s
      simp only [List.cons_append, runEp]
      cases epStep s e with
      | none => simp
      | some s2 => simpa using ih s2

lemma runEp_destroyed (l : List EpEv) : ∀ s2 : EpLife,
    runEp .destroyed l = some s2 → s2 = .destroyed ∧ l = [] := by
  cases l with
  | nil =>
      intro s2 h
      simp only [runEp, Option.some.injEq] at h
      exact ⟨h.symm, rfl⟩
  | cons e rest =>
      intro s2 h
      cases e <;> simp [runEp, epStep] at h

lemma runEp_destroy_mem (l : List EpEv) : ∀ s s2 : EpLife,
    runEp s l = some s2 → EpEv.destroyEv ∈ l → s2 = .destroyed := by
  induction l with
  | nil => intro s s2 _ hmem; exact absurd hmem (by simp)
  | cons e rest ih =>
      intro s s2 h hmem
      simp only [runEp] at h
      cases hstep : epStep s e with
      | none => rw [hstep] at h; exact absurd h (by simp)
      | some s1 =>
          rw [hstep] at h
          by_cases he : e = EpEv.destroyEv
          · subst he
            have hs1 : s1 = .destroyed := by
              cases s <;> simp [epStep] at hstep
              exact hstep.symm
            exact (runEp_destroyed rest s2 (hs1 ▸ h)).1
          · exact ih s1 s2 h ((List.mem_cons.mp hmem).resolve_left fun hc => he hc.symm)

lemma runEp_reach_stopped (l : List EpEv) : ∀ s s2 : EpLife,
    runEp s l = some s2 → s2 = .stoppedE → s = .stoppedE ∨ EpEv.stoppedEv ∈ l := by
  induction l with
  | nil =>
      intro s s2 h h2
      simp only [runEp, Option.some.injEq] at h
      subst h
      exact Or.inl h2
  | cons e rest ih =>
      intro s s2 h h2
      simp only [runEp] at h
      cases hstep : epStep s e with
      | none => rw [hstep] at h; exact absurd h (by simp)
      | some s1 =>
          rw [hstep] at h
          rcases ih s1 s2 h h2 with h1 | h1
          · subst h1
            cases e <;> cases s <;> simp [epStep] at hstep
            exact Or.inr (List.mem_cons_self _ _)
          · exact Or.inr (List.mem_cons_of_mem _ h1)

/-- C2: on any contract-respecting endpoint trace that has reached the
stopped (or destroyed) state, exactly one stopped notification was observed,
and at least one stop request was made — however many stop requests the trace
contains. -/
theorem ep_stop_single_notification (tr : List EpEv) (s2 : EpLife)
    (h : runEp .created tr = some s2) (hs : s2 = .stoppedE ∨ s2 = .destroyed) :
    countEp EpEv.stoppedEv tr = 1 ∧ 1 ≤ countEp EpEv.stopReqEv tr := by
  have hc := runEp_count tr .created s2 h
  rcases hs with rfl | rfl
  · constructor
    · have := hc.1
      simp [ntfFlag] at this
      omega
    · have := hc.2
      simp [reqFlag, countEp] at this ⊢
      omega
  · constructor
    · have := hc.1
      simp [ntfFlag] at this
      omega
    · have := hc.2
      simp [reqFlag, countEp] at this ⊢
      omega

/-- Witness for `ep_stop_single_notification` on the concrete trace activate,
stop, stop, stopped: two stop requests yield exactly one notification. -/
theorem ep_stop_single_notification_witness :
    countEp EpEv.stoppedEv
      [EpEv.activateEv, EpEv.stopReqEv, EpEv.stopReqEv, EpEv.stoppedEv] = 1 ∧
    1 ≤ countEp EpEv.stopReqEv
      [EpEv.activateEv, EpEv.stopReqEv, EpEv.stopReqEv, EpEv.stoppedEv] :=
  ep_stop_single_notification _ EpLife.stoppedE (by decide) (Or.inl rfl)

lemma pipeStep_stopped {s s2 : PipeSt} {e : PipeEv}
    (hl : s.life = .pstopped) (h : pipeStep s e = some s2) :
    s2.life = .pstopped := by
  cases e with
  | startEv =>
      rw [pipeStep, if_neg (fun hc => by rw [hl] at hc; exact absurd hc (by simp))] at h
      exact absurd h (by simp)
  | sendEv res =>
      rw [pipeStep, if_neg (fun hc => by
        rcases hc.1 with hx | hx <;> rw [hl] at hx <;> exact absurd hx (by simp))] at h
      exact absurd h (by simp)
  | recvEv res =>
      rw [pipeStep, if_neg (fun hc => by
        rcases hc.1 with hx | hx <;> rw [hl] at hx <;> exact absurd hx (by simp))] at h
      exact absurd h (by simp)
  | sentEv =>
      rw [pipeStep] at h
      split_ifs at h
      cases h
      exact hl
  | receivedEv =>
      rw [pipeStep] at h
      split_ifs at h
      cases h
      exact hl
  | stopEv =>
      rw [pipeStep, if_neg (fun hc => by rw [hl] at hc; exact absurd hc (by simp))] at h
      exact absurd h (by simp)
  | stopAckEv =>
      rw [pipeStep, if_neg (fun hc => by rw [hl] at hc; exact absurd hc (by simp))] at h
      exact absurd h (by simp)

lemma runPipe_stopped (l : List PipeEv) : ∀ s s2 : PipeSt,
    s.life = .pstopped → runPipe s l = some s2 → s2.life = .pstopped := by
  induction l with
  | nil =>
      intro s s2 hl h
      simp only [runPipe, Option.some.injEq] at h
      subst h
      exact hl
  | cons e rest ih =>
      intro s s2 hl h
      simp only [runPipe] at h
      cases hstep : pipeStep s e with
      | none => rw [hstep] at h; exact absurd h (by simp)
      | some s1 => rw [hstep] at h; exact ih s1 s2 (pipeStep_stopped hl hstep) h

/-- C3: destroy happens only after the stopped notification, and only once:
on a contract-respecting endpoint trace, every destroy is preceded by a
stopped notification and by no other destroy, and is followed by nothing.
Likewise, a pipe trace that delivers a send or recv after the pipe's stop
acknowledgment violates the pipe contract. -/
theorem destroy_after_stop_discipline :
    (∀ (l1 l2 : List EpEv) (s2 : EpLife),
      runEp .created (l1 ++ EpEv.destroyEv :: l2) = some s2 →
      EpEv.stoppedEv ∈ l1 ∧ EpEv.destroyEv ∉ l1 ∧ EpEv.destroyEv ∉ l2) ∧
    (∀ (l1 l2 l3 : List PipeEv) (r : Int),
      runPipe pipe0 (l1 ++ PipeEv.stopAckEv :: (l2 ++ PipeEv.sendEv r :: l3)) = none) ∧
    (∀ (l1 l2 l3 : List PipeEv) (r : Int),
      runPipe pipe0 (l1 ++ PipeEv.stopAckEv :: (l2 ++ PipeEv.recvEv r :: l3)) = none) := by
  refine ⟨?_, ?_, ?_⟩
  · intro l1 l2 s2 h
    rw [runEp_append] at h
    cases hc : runEp .created l1 with
    | none => rw [hc] at h; exact absurd h (by simp)
    | some m =>
        rw [hc] at h
        have h' : runEp m (EpEv.destroyEv :: l2) = some s2 := h
        simp only [runEp] at h'
        cases hstep : epStep m EpEv.destroyEv with
        | none => rw [hstep] at h'; exact absurd h' (by simp)
        | some m2 =>
            rw [hstep] at h'
            have hm : m = .stoppedE ∧ m2 = .destroyed := by
              cases m <;> simp [epStep] at hstep
              exact ⟨rfl, hstep.symm⟩
            refine ⟨?_, ?_, ?_⟩
            · rcases runEp_reach_stopped l1 .created m hc hm.1 with hx | hx
              · exact absurd hx (by simp)
              · exact hx
            · intro hmem
              have := runEp_destroy_mem l1 .created m hc hmem
              rw [this] at hm
              exact absurd hm.1 (by simp)
            · intro hmem
              have := (runEp_destroyed l2 s2 (hm.2 ▸ h')).2
              rw [this] at hmem
              exact absurd hmem (by simp)
  · intro l1 l2 l3 r
    rw [runPipe_append]
    cases hc : runPipe pipe0 l1 with
    | none => rfl
    | some s =>
        show runPipe s (PipeEv.stopAckEv :: (l2 ++ PipeEv.sendEv r :: l3)) = none
        rw [runPipe]
        cases hstep : pipeStep s PipeEv.stopAckEv with
        | none => rfl
        | some s1 =>
            have h1 : s1.life = .pstopped := by
              rw [pipeStep] at hstep
              split_ifs at hstep
              cases hstep
              rfl
            show runPipe s1 (l2 ++ PipeEv.sendEv r :: l3) = none
            rw [runPipe_append]
            cases hc2 : runPipe s1 l2 with
            | none => rfl
            | some s3 =>
                have h3 := runPipe_stopped l2 s1 s3 h1 hc2
                show runPipe s3 (PipeEv.sendEv r :: l3) = none
                rw [runPipe, pipeStep, if_neg (fun hcond => by
                  rcases hcond.1 with hx | hx <;> rw [h3] at hx <;>
                    exact absurd hx (by simp))]
  · intro l1 l2 l3 r
    rw [runPipe_append]
    cases hc : runPipe pipe0 l1 with
    | none => rfl
    | some s =>
        show runPipe s (PipeEv.stopAckEv :: (l2 ++ PipeEv.recvEv r :: l3)) = none
        rw [runPipe]
        cases hstep : pipeStep s PipeEv.stopAckEv with
        | none => rfl
        | some s1 =>
            have h1 : s1.life = .pstopped := by
              rw [pipeStep] at hstep
              split_ifs at hstep
              cases hstep
              rfl
            show runPipe s1 (l2 ++ PipeEv.recvEv r :: l3) = none
            rw [runPipe_append]
            cases hc2 : runPipe s1 l2 with
            | none => rfl
            | some s3 =>
                have h3 := runPipe_stopped l2 s1 s3 h1 hc2
                show runPipe s3 (PipeEv.recvEv r :: l3) = none
                rw [runPipe, pipeStep, if_neg (fun hcond => by
                  rcases hcond.1 with hx | hx <;> rw [h3] at hx <;>
                    exact absurd hx (by simp))]

/-- Witness for `destroy_after_stop_discipline` on the concrete trace
activate, stop, stopped, destroy: the stopped notification precedes the only
destroy. -/
theorem destroy_after_stop_discipline_witness :
    EpEv.stoppedEv ∈ [EpEv.activateEv, EpEv.stopReqEv, EpEv.stoppedEv] ∧
    EpEv.destroyEv ∉ [EpEv.activateEv, EpEv.stopReqEv, EpEv.stoppedEv] ∧
    EpEv.destroyEv ∉ ([] : List EpEv) :=
  destroy_after_stop_discipline.1
    [EpEv.activateEv, EpEv.stopReqEv, EpEv.stoppedEv] [] EpLife.destroyed (by decide)

/-- Modelled from the spec: `nn_pipebase_start` (transport.h line 183) is
called once the connection is established and returns an int result code —
failure when the owning socket is already terminating, success otherwise. -/
def nn_pipebase_start (p : PipeSt) (terminating : Bool) : Int × PipeSt :=
  if terminating then (-ETERM, p)
  else match pipeStep p .startEv with
       | some p2 => (0, p2)
       | none => (-EINVAL, p)

/-- Modelled from the spec: `nn_pipebase_stop` (transport.h line 186) returns
no result code; it just advances the pipe state. -/
def nn_pipebase_stop (p : PipeSt) : PipeSt :=
  (pipeStep p .stopEv).getD p

/-- Modelled from the spec: `nn_pipebase_sent` (transport.h line 192) returns
no result code; it resumes the outbound direction. -/
def nn_pipebase_sent (p : PipeSt) : PipeSt :=
  (pipeStep p .sentEv).getD p

/-- Modelled from the spec: `nn_pipebase_received` (transport.h line 189)
returns no result code; it resumes the inbound direction. -/
def nn_pipebase_received (p : PipeSt) : PipeSt :=
  (pipeStep p .receivedEv).getD p

/-- C10: starting a pipe is fallible — there is an input on which
`nn_pipebase_start` reports a negative code, an input on which it reports 0,
and whenever it fails the pipe is left unchanged, so the caller must check
the result before treating the connection as usable. -/
theorem pipebase_start_fallible :
    ((nn_pipebase_start pipe0 true).1 < 0) ∧
    ((nn_pipebase_start pipe0 false).1 = 0) ∧
    (∀ (p : PipeSt) (b : Bool),
      (nn_pipebase_start p b).1 < 0 → (nn_pipebase_start p b).2 = p) := by
  refine ⟨by decide, by decide, ?_⟩
  intro p b h
  cases b with
  | true => rfl
  | false =>
      rw [nn_pipebase_start] at h ⊢
      simp only [if_neg Bool.false_ne_true] at h ⊢
      cases hstep : pipeStep p .startEv with
      | none => rfl
      | some p2 =>
          rw [hstep] at h
          exact absurd h (by simp)

/-- Witness for `pipebase_start_fallible`: starting while the socket is
terminating fails and leaves the initial pipe state unchanged. -/
theorem pipebase_start_fallible_witness :
    (nn_pipebase_start pipe0 true).2 = pipe0 :=
  pipebase_start_fallible.2.2 pipe0 true (by decide)

/-- Kind of a transport lifecycle hook, from `nn_transport.init` / `.term`
(transport.h lines 220-221). -/
inductive HookKind
  | inihk
  | termhk
deriving DecidableEq

/-- What one thread is currently executing at this boundary. -/
inductive TSt
  | idle
  | inGlobal (k : HookKind)
  | inBind (s : Nat)
  | inConnect (s : Nat)
deriving DecidableEq

/-- Modelled from the spec: process-wide state for the transport descriptor
contract — the global critical section guard, one critical-section guard per
socket, each thread's activity, and whether the library is initialised. -/
structure GSt where
  glock : Option Nat
  slock : Nat → Option Nat
  tst : Nat → TSt
  inited : Bool

/-- Scheduling events: a thread enters or leaves a lifecycle hook under the
global critical section, or enters or leaves a bind/connect call under the
per-socket critical section. -/
inductive GEv
  | enterInit (t : Nat)
  | enterTerm (t : Nat)
  | exitGlobal (t : Nat)
  | enterBind (t s : Nat)
  | enterConnect (t s : Nat)
  | exitSock (t : Nat)
deriving DecidableEq

/-- Modelled from the spec: one scheduling step.  `init`/`term` require the
global critical section to be free (init at first use, term at final use);
`bind`/`connect` on socket `s` require `s`'s critical section to be free. -/
def gStep (g : GSt) : GEv → Option GSt
  | .enterInit t =>
      if g.tst t = .idle ∧ g.glock = none ∧ g.inited = false then
        some { glock := some t, slock := g.slock,
               tst := fun u => if u = t then .inGlobal .inihk else g.tst u,
               inited := true }
      else none
  | .enterTerm t =>
      if g.tst t = .idle ∧ g.glock = none ∧ g.inited = true then
        some { glock := some t, slock := g.slock,
               tst := fun u => if u = t then .inGlobal .termhk else g.tst u,
               inited := false }
      else none
  | .exitGlobal t =>
      match g.tst t with
      | .inGlobal _ =>
          some { glock := none, slock := g.slock,
                 tst := fun u => if u = t then .idle else g.tst u,
                 inited := g.inited }
      | _ => none
  | .enterBind t s =>
      if g.tst t = .idle ∧ g.slock s = none ∧ g.inited = true then
        some { glock := g.glock,
               slock := fun v => if v = s then some t else g.slock v,
               tst := fun u => if u = t then .inBind s else g.tst u,
               inited := g.inited }
      else none
  | .enterConnect t s =>
      if g.tst t = .idle ∧ g.slock s = none ∧ g.inited = true then
        some { glock := g.glock,
               slock := fun v => if v = s then some t else g.slock v,
               tst := fun u => if u = t then .inConnect s else g.tst u,
               inited := g.inited }
      else none
  | .exitSock t =>
      match g.tst t with
      | .inBind s =>
          some { glock := g.glock,
                 slock := fun v => if v = s then none else g.slock v,
                 tst := fun u => if u = t then .idle else g.tst u,
                 inited := g.inited }
      | .inConnect s =>
          some { glock := g.glock,
                 slock := fun v => if v = s then none else g.slock v,
                 tst := fun u => if u = t then .idle else g.tst u,
                 inited := g.inited }
      | _ => none

/-- Run a sequence of scheduling events; `none` means some step violated the
critical-section discipline. -/
def runG : GSt → List GEv → Option GSt
  | g, [] => some g
  | g, e :: rest =>
      match gStep g e with
      | some g2 => runG g2 rest
      | none => none

/-- Initial process state: no locks held, every thread idle, library not yet
initialised. -/
def g0 : GSt :=
  { glock := none, slock := fun _ => none, tst := fun _ => .idle, inited := false }

/-- Lock-discipline invariant: a thread inside a lifecycle hook owns the
global critical section; a thread inside bind/connect on socket `s` owns
`s`'s critical section. -/
def GInv (g : GSt) : Prop :=
  (∀ t k, g.tst t = .inGlobal k → g.glock = some t) ∧
  (∀ t s, g.tst t = .inBind s ∨ g.tst t = .inConnect s → g.slock s = some t)

lemma gStep_inv {g g2 : GSt} {e : GEv} (hInv : GInv g) (h : gStep g e = some g2) :
    GInv g2 := by
  obtain ⟨hA, hB⟩ := hInv
  cases e with
  | enterInit t =>
      rw [gStep] at h
      split_ifs at h with hc
      cases h
      constructor
      · intro u k hu
        simp only at hu
        by_cases hut : u = t
        · simp [hut]
        · rw [if_neg hut] at hu
          exact absurd (hA u k hu) (by rw [hc.2.1]; simp)
      · intro u s hu
        simp only at hu ⊢
        by_cases hut : u = t
        · rw [if_pos hut] at hu
          rcases hu with hu | hu <;> exact absurd hu (by simp)
        · rw [if_neg hut] at hu
          exact hB u s hu
  | enterTerm t =>
      rw [gStep] at h
      split_ifs at h with hc
      cases h
      constructor
      · intro u k hu
        simp only at hu
        by_cases hut : u = t
        · simp [hut]
        · rw [if_neg hut] at hu
          exact absurd (hA u k hu) (by rw [hc.2.1]; simp)
      · intro u s hu
        simp only at hu ⊢
        by_cases hut : u = t
        · rw [if_pos hut] at hu
          rcases hu with hu | hu <;> exact absurd hu (by simp)
        · rw [if_neg hut] at hu
          exact hB u s hu
  | exitGlobal t =>
      rw [gStep] at h
      cases htt : g.tst t with
      | inGlobal k0 =>
          rw [htt] at h
          cases h
          constructor
          · intro u k hu
            simp only at hu
            by_cases hut : u = t
            · rw [if_pos hut] at hu
              exact absurd hu (by simp)
            · rw [if_neg hut] at hu
              have h1 := hA u k hu
              have h2 := hA t k0 htt
              rw [h1] at h2
              exact absurd (Option.some.inj h2) hut
          · intro u s hu
            simp only at hu ⊢
            by_cases hut : u = t
            · rw [if_pos hut] at hu
              rcases hu with hu | hu <;> exact absurd hu (by simp)
            · rw [if_neg hut] at hu
              exact hB u s hu
      | idle => rw [htt] at h; exact absurd h (by simp)
      | inBind s0 => rw [htt] at h; exact absurd h (by simp)
      | inConnect s0 => rw [htt] at h; exact absurd h (by simp)
  | enterBind t s =>
      rw [gStep] at h
      split_ifs at h with hc
      cases h
      constructor
      · intro u k hu
        simp only at hu ⊢
        by_cases hut : u = t
        · rw [if_pos hut] at hu
          exact absurd hu (by simp)
        · rw [if_neg hut] at hu
          exact hA u k hu
      · intro u s2 hu
        simp only at hu ⊢
        by_cases hut : u = t
        · subst hut
          rw [if_pos rfl] at hu
          rcases hu with hu | hu
          · obtain rfl := TSt.inBind.inj hu
            simp
          · exact absurd hu (by simp)
        · rw [if_neg hut] at hu
          have hslot := hB u s2 hu
          by_cases hss : s2 = s
          · rw [hss, hc.2.1] at hslot
            exact absurd hslot (by simp)
          · rw [if_neg hss]
            exact hslot
  | enterConnect t s =>
      rw [gStep] at h
      split_ifs at h with hc
      cases h
      constructor
      · intro u k hu
        simp only at hu ⊢
        by_cases hut : u = t
        · rw [if_pos hut] at hu
          exact absurd hu (by simp)
        · rw [if_neg hut] at hu
          exact hA u k hu
      · intro u s2 hu
        simp only at hu ⊢
        by_cases hut : u = t
        · subst hut
          rw [if_pos rfl] at hu
          rcases hu with hu | hu
          · exact absurd hu (by simp)
          · obtain rfl := TSt.inConnect.inj hu
            simp
        · rw [if_neg hut] at hu
          have hslot := hB u s2 hu
          by_cases hss : s2 = s
          · rw [hss, hc.2.1] at hslot
            exact absurd hslot (by simp)
          · rw [if_neg hss]
            exact hslot
  | exitSock t =>
      rw [gStep] at h
      cases htt : g.tst t with
      | idle => rw [htt] at h; exact absurd h (by simp)
      | inGlobal k0 => rw [htt] at h; exact absurd h (by simp)
      | inBind s0 =>
          rw [htt] at h
          cases h
          constructor
          · intro u k hu
            simp only at hu ⊢
            by_cases hut : u = t
            · rw [if_pos hut] at hu
              exact absurd hu (by simp)
            · rw [if_neg hut] at hu
              exact hA u k hu
          · intro u s2 hu
            simp only at hu ⊢
            by_cases hut : u = t
            · rw [if_pos hut] at hu
              rcases hu with hu | hu <;> exact absurd hu (by simp)
            · rw [if_neg hut] at hu
              have hslot := hB u s2 hu
              by_cases hss : s2 = s0
              · have hts := hB t s0 (Or.inl htt)
                rw [hss] at hslot
                rw [hslot] at hts
                exact absurd (Option.some.inj hts) hut
              · rw [if_neg hss]
                exact hslot
      | inConnect s0 =>
          rw [htt] at h
          cases h
          constructor
          · intro u k hu
            simp only at hu ⊢
            by_cases hut : u = t
            · rw [if_pos hut] at hu
              exact absurd hu (by simp)
            · rw [if_neg hut] at hu
              exact hA u k hu
          · intro u s2 hu
            simp only at hu ⊢
            by_cases hut : u = t
            · rw [if_pos hut] at hu
              rcases hu with hu | hu <;> exact absurd hu (by simp)
            · rw [if_neg hut] at hu
              have hslot := hB u s2 hu
              by_cases hss : s2 = s0
              · have hts := hB t s0 (Or.inr htt)
                rw [hss] at hslot
                rw [hslot] at hts
                exact absurd (Option.some.inj hts) hut
              · rw [if_neg hss]
                exact hslot

lemma runG_inv (l : List GEv) : ∀ g g2 : GSt,
    GInv g → runG g l = some g2 → GInv g2 := by
  induction l with
  | nil =>
      intro g g2 hInv h
      simp only [runG, Option.some.injEq] at h
      subst h
      exact hInv
  | cons e rest ih =>
      intro g g2 hInv h
      simp only [runG] at h
      cases hstep : gStep g e with
      | none => rw [hstep] at h; exact absurd h (by simp)
      | some g1 => rw [hstep] at h; exact ih g1 g2 (gStep_inv hInv hstep) h

lemma g0_inv : GInv g0 := by
  constructor
  · intro t k h
    exact absurd h (by simp [g0])
  · intro t s h
    rcases h with h | h <;> exact absurd h (by simp [g0])

/-- Number of init-hook entries in a scheduling trace. -/
def countInitEv : List GEv → Nat
  | [] => 0
  | .enterInit _ :: rest => countInitEv rest + 1
  | _ :: rest => countInitEv rest

/-- Number of term-hook entries in a scheduling trace. -/
def countTermEv : List GEv → Nat
  | [] => 0
  | .enterTerm _ :: rest => countTermEv rest + 1
  | _ :: rest => countTermEv rest

/-- One if the library is initialised in a state, zero otherwise. -/
def initedFlag (g : GSt) : Nat := if g.inited then 1 else 0

lemma runG_initcount (l : List GEv) : ∀ g g2 : GSt, runG g l = some g2 →
    countInitEv l + initedFlag g = countTermEv l + initedFlag g2 := by
  induction l with
  | nil =>
      intro g g2 h
      simp only [runG, Option.some.injEq] at h
      subst h
      simp [countInitEv, countTermEv]
  | cons e rest ih =>
      intro g g2 h
      simp only [runG] at h
      cases hstep : gStep g e with
      | none => rw [hstep] at h; exact absurd h (by simp)
      | some g1 =>
          rw [hstep] at h
          have hrec := ih g1 g2 h
          cases e with
          | enterInit t =>
              rw [gStep] at hstep
              split_ifs at hstep with hc
              cases hstep
              simp only [countInitEv, countTermEv, initedFlag, hc.2.2] at hrec ⊢
              simp at hrec ⊢
              all_goals omega
          | enterTerm t =>
              rw [gStep] at hstep
              split_ifs at hstep with hc
              cases hstep
              simp only [countInitEv, countTermEv, initedFlag, hc.2.2] at hrec ⊢
              simp at hrec ⊢
              all_goals omega
          | exitGlobal t =>
              have hsame : g1.inited = g.inited := by
                rw [gStep] at hstep
                cases htt : g.tst t <;> rw [htt] at hstep <;> simp at hstep
                all_goals (subst hstep; rfl)
              simp only [countInitEv, countTermEv] at hrec ⊢
              rw [initedFlag, hsame, ← initedFlag] at hrec
              omega
          | enterBind t s =>
              have hsame : g1.inited = g.inited := by
                rw [gStep] at hstep
                split_ifs at hstep
                cases hstep
                rfl
              simp only [countInitEv, countTermEv] at hrec ⊢
              rw [initedFlag, hsame, ← initedFlag] at hrec
              omega
          | enterConnect t s =>
              have hsame : g1.inited = g.inited := by
                rw [gStep] at hstep
                split_ifs at hstep
                cases hstep
                rfl
              simp only [countInitEv, countTermEv] at hrec ⊢
              rw [initedFlag, hsame, ← initedFlag] at hrec
              omega
          | exitSock t =>
              have hsame : g1.inited = g.inited := by
                rw [gStep] at hstep
                cases htt : g.tst t <;> rw [htt] at hstep <;> simp at hstep
                all_goals (subst hstep; rfl)
              simp only [countInitEv, countTermEv] at hrec ⊢
              rw [initedFlag, hsame, ← initedFlag] at hrec
              omega

/-- C9: on any discipline-respecting schedule, at most one thread is inside
any transport lifecycle hook process-wide; at most one thread is inside
bind/connect for a given socket; two binds on different sockets can be in
progress simultaneously; and init/term entries are paired — never two inits
without a term between them, never more terms than inits. -/
theorem transport_critical_sections :
    (∀ (l : List GEv) (g2 : GSt) (t1 t2 : Nat) (k1 k2 : HookKind),
      runG g0 l = some g2 → g2.tst t1 = .inGlobal k1 → g2.tst t2 = .inGlobal k2 →
      t1 = t2) ∧
    (∀ (l : List GEv) (g2 : GSt) (t1 t2 s : Nat),
      runG g0 l = some g2 →
      (g2.tst t1 = .inBind s ∨ g2.tst t1 = .inConnect s) →
      (g2.tst t2 = .inBind s ∨ g2.tst t2 = .inConnect s) →
      t1 = t2) ∧
    ((runG g0 [GEv.enterInit 9, GEv.exitGlobal 9, GEv.enterBind 0 0,
        GEv.enterBind 1 1]).map (fun g2 => (g2.tst 0, g2.tst 1)) =
      some (TSt.inBind 0, TSt.inBind 1)) ∧
    (∀ (l : List GEv) (g2 : GSt), runG g0 l = some g2 →
      countTermEv l ≤ countInitEv l ∧ countInitEv l ≤ countTermEv l + 1) := by
  refine ⟨?_, ?_, ?_, ?_⟩
  · intro l g2 t1 t2 k1 k2 hrun h1 h2
    have hInv := runG_inv l g0 g2 g0_inv hrun
    have e1 := hInv.1 t1 k1 h1
    have e2 := hInv.1 t2 k2 h2
    rw [e1] at e2
    exact Option.some.inj e2
  · intro l g2 t1 t2 s hrun h1 h2
    have hInv := runG_inv l g0 g2 g0_inv hrun
    have e1 := hInv.2 t1 s h1
    have e2 := hInv.2 t2 s h2
    rw [e1] at e2
    exact Option.some.inj e2
  · rfl
  · intro l g2 hrun
    have := runG_initcount l g0 g2 hrun
    simp only [initedFlag, g0] at this
    by_cases hi : g2.inited <;> simp [hi] at this <;> omega

/-- Example state reached by one thread entering the init hook. -/
def gEx1 : GSt :=
  { glock := some 0, slock := fun _ => none,
    tst := fun u => if u = 0 then .inGlobal .inihk else .idle, inited := true }

/-- Witness for `transport_critical_sections` on the concrete one-event
schedule entering init once: one init entry, zero term entries. -/
theorem transport_critical_sections_witness :
    countTermEv [GEv.enterInit 0] ≤ countInitEv [GEv.enterInit 0] ∧
    countInitEv [GEv.enterInit 0] ≤ countTermEv [GEv.enterInit 0] + 1 :=
  transport_critical_sections.2.2.2 [GEv.enterInit 0] gEx1 rfl
